import Mathlib

/-!
Shallow embedding of `src/DataIngestion.py` (class `CSVToPostgresPipeline`),
a CSV-to-PostgreSQL ingestion pipeline.  Python strings are modelled as
`List Char` wherever character-level operations occur; Python's `str.lower`
and `str.strip` are modelled with ASCII semantics (the repository only
handles ASCII filenames and headers).  External effects (file reads and
database writes) are modelled by explicit oracles and result values.
-/

namespace DataIngestion

/-! ### Character-level helpers for Python string methods -/

/-- ASCII uppercase test: the characters affected by Python `str.lower`
in the ASCII range. -/
def isUpperAscii (c : Char) : Bool := 65 ≤ c.toNat && c.toNat ≤ 90

/-- ASCII whitespace recognised by Python `str.strip`. -/
def isPyWs (c : Char) : Bool :=
  c == ' ' || c == '\t' || c == '\n' || c == '\r' ||
  c == Char.ofNat 11 || c == Char.ofNat 12

/-- Python `s.lower()` on ASCII input: `Char.toLower` maps exactly the
letters `A`-`Z` to `a`-`z` and is the identity elsewhere. -/
def pyLower (s : List Char) : List Char := s.map Char.toLower

/-- Python `s.strip()`: drop leading and trailing whitespace. -/
def pyStrip (s : List Char) : List Char :=
  ((s.dropWhile isPyWs).reverse.dropWhile isPyWs).reverse

/-- The `'.csv'`-removal pass of `filename.replace('.csv', '')`:
left-to-right, non-overlapping, removes every match. -/
def removeCsv : List Char → List Char
  | '.' :: 'c' :: 's' :: 'v' :: rest => removeCsv rest
  | c :: rest => c :: removeCsv rest
  | [] => []

/-- Python `s.replace('-', '_')`: single-character replacement is a map. -/
def replaceDash (s : List Char) : List Char :=
  s.map (fun c => if c == '-' then '_' else c)

/-! ### `get_table_name` and `clean_column_names` -/

/-- Source `get_table_name`, verbatim:
`return filename.replace('.csv', '').replace('-', '_').lower()`. -/
def get_table_name (filename : List Char) : List Char :=
  pyLower (replaceDash (removeCsv filename))

/-- Source per-header expression: `c.strip().replace(' ', '')`. -/
def cleanName (c : List Char) : List Char :=
  (pyStrip c).filter (fun ch => !(ch == ' '))

/-- A pandas `DataFrame`, reduced to the two attributes the pipeline
observes: its column headers and its rows. -/
structure Frame (α : Type) where
  cols : List (List Char)
  rows : List α
deriving DecidableEq

/-- Source `clean_column_names`, verbatim:
`df.columns = [c.strip().replace(' ', '') for c in df.columns]`. -/
def clean_column_names {α : Type} (df : Frame α) : Frame α :=
  ⟨df.cols.map cleanName, df.rows⟩

/-! ### Character lemmas -/

theorem char_toNat_ofNat (n : Nat) (h : n < 55296) : (Char.ofNat n).toNat = n := by
  have hv : n.isValidChar := Or.inl h
  rw [Char.ofNat, dif_pos hv]
  simp [Char.ofNatAux, Char.toNat, UInt32.toNat, BitVec.toNat_ofNatLt]

theorem toLower_toNat_of_upper (c : Char) (h : 65 ≤ c.toNat ∧ c.toNat ≤ 90) :
    (Char.toLower c).toNat = c.toNat + 32 := by
  rw [Char.toLower]
  simp only [ge_iff_le]
  rw [if_pos h]
  exact char_toNat_ofNat _ (by omega)

theorem toLower_eq_self (c : Char) (h : ¬(65 ≤ c.toNat ∧ c.toNat ≤ 90)) :
    Char.toLower c = c := by
  rw [Char.toLower]
  simp only [ge_iff_le]
  rw [if_neg h]

theorem isUpperAscii_toLower (c : Char) : isUpperAscii (Char.toLower c) = false := by
  by_cases h : 65 ≤ c.toNat ∧ c.toNat ≤ 90
  · have ht := toLower_toNat_of_upper c h
    simp only [isUpperAscii, Bool.and_eq_false_iff, decide_eq_false_iff_not, not_le]
    omega
  · rw [toLower_eq_self c h]
    simp only [isUpperAscii, Bool.and_eq_false_iff, decide_eq_false_iff_not, not_le]
    omega

theorem toLower_ne_dash (c : Char) (h : c ≠ '-') : Char.toLower c ≠ '-' := by
  by_cases hb : 65 ≤ c.toNat ∧ c.toNat ≤ 90
  · intro he
    have ht := congrArg Char.toNat he
    rw [toLower_toNat_of_upper c hb] at ht
    have hd : ('-' : Char).toNat = 45 := by decide
    omega
  · rw [toLower_eq_self c hb]
    exact h

theorem mem_replaceDash_ne_dash (s : List Char) : ∀ c ∈ replaceDash s, c ≠ '-' := by
  intro c hc
  rcases List.mem_map.1 hc with ⟨d, _, rfl⟩
  by_cases hd : d == '-'
  · simp only [hd, if_true]
    decide
  · simp only [hd, if_false]
    simpa using hd

/-! ### Claim C5 -/

/-- Claim C5: for every filename `f`, the Table Namer is deterministic
(`get_table_name f = get_table_name f`), total on arbitrary strings, and
its result is lowercase (no ASCII uppercase letter) and contains no
hyphen. -/
theorem table_namer_C5 (f : List Char) :
    get_table_name f = get_table_name f ∧
    (∀ c ∈ get_table_name f, isUpperAscii c = false) ∧
    (∀ c ∈ get_table_name f, c ≠ '-') := by
  refine ⟨rfl, ?_, ?_⟩
  · intro c hc
    rcases List.mem_map.1 hc with ⟨d, _, rfl⟩
    exact isUpperAscii_toLower d
  · intro c hc
    rcases List.mem_map.1 hc with ⟨d, hd, rfl⟩
    exact toLower_ne_dash d (mem_replaceDash_ne_dash _ d hd)

/-- Witness for C5 at the concrete filename `Begin-Inventory.csv`. -/
theorem table_namer_C5_witness :
    isUpperAscii 'b' = false ∧ 'b' ≠ '-' :=
  ⟨(table_namer_C5 "Begin-Inventory.csv".data).2.1 'b' (by decide),
   (table_namer_C5 "Begin-Inventory.csv".data).2.2 'b' (by decide)⟩

/-! ### Claim C9 -/

/-- Claim C9: `get_table_name` removes every occurrence of the literal
lowercase substring `.csv`, before lowercasing: an uppercase extension is
not stripped (`A.CSV` maps to `a.csv`), a mid-name `.csv` is deleted
(`data.csv.bak` maps to `data.bak`), and repeated occurrences are all
removed (`x.csv.csv` maps to `x`). -/
theorem table_namer_removes_csv_C9 :
    get_table_name "A.CSV".data = "a.csv".data ∧
    get_table_name "data.csv.bak".data = "data.bak".data ∧
    get_table_name "x.csv.csv".data = "x".data := by
  refine ⟨?_, ?_, ?_⟩ <;> decide

/-! ### Strip / filter lemmas for the Column Normalizer -/

theorem head?_dropWhile_ws (p : Char → Bool) (l : List Char) (c : Char)
    (h : (l.dropWhile p).head? = some c) : p c = false := by
  have hm := List.head?_dropWhile_not p l
  rw [h] at hm
  exact hm

theorem getLast?_dropWhile_of_some (p : Char → Bool) :
    ∀ (l : List Char) (c : Char),
      (l.dropWhile p).getLast? = some c → l.getLast? = some c := by
  intro l
  induction l with
  | nil => simp
  | cons a t ih =>
    intro c h
    by_cases hp : p a
    · rw [List.dropWhile_cons_of_pos hp] at h
      have ht := ih c h
      cases t with
      | nil => simp at ht
      | cons b u =>
        rw [List.getLast?_cons_cons]
        exact ht
    · rw [List.dropWhile_cons_of_neg hp] at h
      exact h

theorem head?_pyStrip_not_ws (s : List Char) (c : Char)
    (h : (pyStrip s).head? = some c) : isPyWs c = false := by
  unfold pyStrip at h
  rw [List.head?_reverse] at h
  have h2 := getLast?_dropWhile_of_some isPyWs _ c h
  rw [List.getLast?_reverse] at h2
  exact head?_dropWhile_ws isPyWs s c h2

theorem getLast?_pyStrip_not_ws (s : List Char) (c : Char)
    (h : (pyStrip s).getLast? = some c) : isPyWs c = false := by
  unfold pyStrip at h
  rw [List.getLast?_reverse] at h
  exact head?_dropWhile_ws isPyWs _ c h

theorem head?_filter_of_pos {α : Type} (p : α → Bool) (l : List α) (a : α)
    (h : l.head? = some a) (hp : p a = true) : (l.filter p).head? = some a := by
  cases l with
  | nil => simp at h
  | cons x t =>
    have hx : x = a := by simpa using h
    subst hx
    simp [List.filter_cons, hp]

theorem getLast?_filter_of_pos {α : Type} (p : α → Bool) (l : List α) (a : α)
    (h : l.getLast? = some a) (hp : p a = true) : (l.filter p).getLast? = some a := by
  rw [List.getLast?_eq_head?_reverse] at h ⊢
  rw [← List.filter_reverse]
  exact head?_filter_of_pos p l.reverse a h hp

theorem not_ws_ne_space (c : Char) (h : isPyWs c = false) : (!(c == ' ')) = true := by
  rcases instDecidableEqChar c ' ' with he | he
  · simpa using he
  · subst he
    simp [isPyWs] at h

theorem cleanName_head?_not_ws (c : List Char) (ch : Char)
    (h : (cleanName c).head? = some ch) : isPyWs ch = false := by
  unfold cleanName at h
  cases hs : (pyStrip c).head? with
  | none =>
    rw [List.head?_eq_none_iff] at hs
    rw [hs] at h
    simp at h
  | some d =>
    have hd := head?_pyStrip_not_ws c d hs
    have := head?_filter_of_pos (fun ch => !(ch == ' ')) (pyStrip c) d hs
      (not_ws_ne_space d hd)
    rw [this] at h
    cases h
    exact hd

theorem cleanName_getLast?_not_ws (c : List Char) (ch : Char)
    (h : (cleanName c).getLast? = some ch) : isPyWs ch = false := by
  unfold cleanName at h
  cases hs : (pyStrip c).getLast? with
  | none =>
    rw [List.getLast?_eq_none_iff] at hs
    rw [hs] at h
    simp at h
  | some d =>
    have hd := getLast?_pyStrip_not_ws c d hs
    have := getLast?_filter_of_pos (fun ch => !(ch == ' ')) (pyStrip c) d hs
      (not_ws_ne_space d hd)
    rw [this] at h
    cases h
    exact hd

theorem getD_map_cleanName :
    ∀ (l : List (List Char)) (i : Nat), i < l.length →
      (l.map cleanName).getD i [] = cleanName (l.getD i []) := by
  intro l
  induction l with
  | nil => intro i hi; simp at hi
  | cons x t ih =>
    intro i hi
    cases i with
    | zero => rfl
    | succ j =>
      simp only [List.map_cons, List.getD_cons_succ]
      exact ih j (by simpa using hi)

/-! ### Claim C6 -/

/-- Claim C6: the Column Normalizer returns a header sequence of the same
length and order; no result element contains a space, none has leading or
trailing whitespace, and the function is total (never fails), including on
empty strings. -/
theorem column_normalizer_C6 {α : Type} (df : Frame α) :
    (clean_column_names df).cols.length = df.cols.length ∧
    (∀ i, i < df.cols.length →
        (clean_column_names df).cols.getD i [] = cleanName (df.cols.getD i [])) ∧
    (∀ e ∈ (clean_column_names df).cols,
        (∀ ch ∈ e, ch ≠ ' ') ∧
        (∀ ch, e.head? = some ch → isPyWs ch = false) ∧
        (∀ ch, e.getLast? = some ch → isPyWs ch = false)) := by
  refine ⟨by simp [clean_column_names], ?_, ?_⟩
  · intro i hi
    exact getD_map_cleanName df.cols i hi
  · intro e he
    rcases List.mem_map.1 he with ⟨c, _, rfl⟩
    refine ⟨?_, ?_, ?_⟩
    · intro ch hch
      have := List.of_mem_filter hch
      simpa using this
    · intro ch h
      exact cleanName_head?_not_ws c ch h
    · intro ch h
      exact cleanName_getLast?_not_ws c ch h

/-- Witness for C6 at a concrete frame with headers
`[" Vendor Name ", "", "Total  Price "]`. -/
theorem column_normalizer_C6_witness :
    (clean_column_names (Frame.mk [" Vendor Name ".data, "".data, "Total  Price ".data]
        ([] : List Nat))).cols.length = 3 ∧
    (clean_column_names (Frame.mk [" Vendor Name ".data, "".data, "Total  Price ".data]
        ([] : List Nat))).cols.getD 0 [] = "VendorName".data := by
  constructor
  · have h := (column_normalizer_C6 (Frame.mk
      [" Vendor Name ".data, "".data, "Total  Price ".data] ([] : List Nat))).1
    rw [h]
    rfl
  · have h := (column_normalizer_C6 (Frame.mk
      [" Vendor Name ".data, "".data, "Total  Price ".data] ([] : List Nat))).2.1 0
      (by decide)
    rw [h]
    decide

/-! ### Chunked reading (`pd.read_csv(file_path, chunksize=...)`)

The pandas chunked reader yields consecutive row batches of exactly
`chunksize` rows, the final batch possibly smaller.  `chunksAux` walks the
row list accumulating the current batch (reversed), which makes the
definition structurally recursive and kernel-evaluable; `chunksOf_eq_cons`
proves the usual take/drop characterisation. -/

def chunksAux {α : Type} (cs : Nat) : List α → List α → List (List α)
  | [], acc => if acc.isEmpty then [] else [acc.reverse]
  | x :: xs, acc =>
    if acc.length + 1 = cs then (x :: acc).reverse :: chunksAux cs xs []
    else chunksAux cs xs (x :: acc)

def chunksOf {α : Type} (cs : Nat) (l : List α) : List (List α) :=
  chunksAux cs l []

theorem chunksOf_nil {α : Type} (cs : Nat) : chunksOf cs ([] : List α) = [] := rfl

theorem chunksAux_of_le {α : Type} (cs : Nat) :
    ∀ (xs acc : List α), xs.length + acc.length ≤ cs →
      chunksAux cs xs acc =
        if (acc.reverse ++ xs).isEmpty then [] else [acc.reverse ++ xs] := by
  intro xs
  induction xs with
  | nil =>
    intro acc h
    cases acc with
    | nil => simp [chunksAux]
    | cons a t => simp [chunksAux]
  | cons x xs ih =>
    intro acc h
    simp only [List.length_cons] at h
    simp only [chunksAux]
    by_cases hc : acc.length + 1 = cs
    · rw [if_pos hc]
      have hx : xs = [] := by
        have : xs.length = 0 := by omega
        exact List.eq_nil_of_length_eq_zero this
      subst hx
      simp [chunksAux, List.reverse_cons]
    · rw [if_neg hc]
      rw [ih (x :: acc) (by simp; omega)]
      simp [List.reverse_cons, List.append_assoc]

theorem chunksAux_of_lt {α : Type} (cs : Nat) :
    ∀ (xs acc : List α), acc.length < cs → cs ≤ xs.length + acc.length →
      chunksAux cs xs acc =
        (acc.reverse ++ xs.take (cs - acc.length)) ::
          chunksAux cs (xs.drop (cs - acc.length)) [] := by
  intro xs
  induction xs with
  | nil =>
    intro acc h1 h2
    simp only [List.length_nil, Nat.zero_add] at h2
    omega
  | cons x xs ih =>
    intro acc h1 h2
    simp only [List.length_cons] at h2
    simp only [chunksAux]
    by_cases hc : acc.length + 1 = cs
    · rw [if_pos hc]
      have hone : cs - acc.length = 1 := by omega
      rw [hone]
      simp [List.reverse_cons]
    · rw [if_neg hc]
      have hlt : acc.length + 1 < cs := by omega
      rw [ih (x :: acc) (by simpa using hlt) (by simp; omega)]
      have hs : cs - acc.length = (cs - (acc.length + 1)) + 1 := by omega
      rw [hs]
      simp [List.reverse_cons, List.append_assoc, List.take_succ_cons,
        List.drop_succ_cons]

theorem chunksOf_eq_cons {α : Type} (cs : Nat) (hcs : 0 < cs) (l : List α)
    (hl : l ≠ []) : chunksOf cs l = l.take cs :: chunksOf cs (l.drop cs) := by
  unfold chunksOf
  by_cases hle : cs ≤ l.length
  · rw [chunksAux_of_lt cs l [] (by simpa using hcs) (by simpa using hle)]
    simp
  · push_neg at hle
    rw [chunksAux_of_le cs l [] (by simp; omega)]
    have ht : l.take cs = l := List.take_of_length_le (by omega)
    have hd : l.drop cs = [] := List.drop_eq_nil_of_le (by omega)
    rw [ht, hd]
    simp [chunksAux, hl]

theorem chunksOf_induction {α : Type} (cs : Nat) (hcs : 0 < cs)
    (P : List α → Prop) (h0 : P ([] : List α))
    (h1 : ∀ l : List α, l ≠ [] → P (l.drop cs) → P l) : ∀ l : List α, P l := by
  have key : ∀ (n : Nat) (l : List α), l.length ≤ n → P l := by
    intro n
    induction n with
    | zero =>
      intro l hl
      have : l = [] := List.eq_nil_of_length_eq_zero (by omega)
      subst this
      exact h0
    | succ n ih =>
      intro l hl
      by_cases he : l = []
      · subst he; exact h0
      · refine h1 l he (ih _ ?_)
        have hlen := List.length_drop cs l
        have hpos : 0 < l.length := List.length_pos.2 he
        omega
  intro l
  exact key l.length l le_rfl

theorem chunksOf_mem_length_le {α : Type} (cs : Nat) (hcs : 0 < cs) :
    ∀ l : List α, ∀ c ∈ chunksOf cs l, c.length ≤ cs := by
  refine chunksOf_induction cs hcs _ ?_ ?_
  · simp [chunksOf_nil]
  · intro l hne ih c hc
    rw [chunksOf_eq_cons cs hcs l hne] at hc
    rcases List.mem_cons.1 hc with h | h
    · subst h
      simp only [List.length_take]
      omega
    · exact ih c h

theorem chunksOf_flatten {α : Type} (cs : Nat) (hcs : 0 < cs) :
    ∀ l : List α, (chunksOf cs l).flatten = l := by
  refine chunksOf_induction cs hcs _ ?_ ?_
  · simp [chunksOf_nil]
  · intro l hne ih
    rw [chunksOf_eq_cons cs hcs l hne]
    rw [List.flatten_cons, ih, List.take_append_drop]

theorem chunksOf_full_of_not_last {α : Type} (cs : Nat) (hcs : 0 < cs) :
    ∀ l : List α, ∀ i, i + 1 < (chunksOf cs l).length →
      ((chunksOf cs l).getD i []).length = cs := by
  refine chunksOf_induction cs hcs _ ?_ ?_
  · simp [chunksOf_nil]
  · intro l hne ih i hi
    rw [chunksOf_eq_cons cs hcs l hne] at hi ⊢
    cases i with
    | zero =>
      simp only [List.getD_cons_zero, List.length_take]
      simp only [List.length_cons] at hi
      have hrest : chunksOf cs (l.drop cs) ≠ [] := by
        intro hn
        rw [hn] at hi
        simp at hi
      have hdrop : l.drop cs ≠ [] := by
        intro hn
        rw [hn] at hrest
        exact hrest (chunksOf_nil cs)
      have hlen : 0 < (l.drop cs).length := List.length_pos.2 hdrop
      rw [List.length_drop] at hlen
      omega
    | succ j =>
      simp only [List.getD_cons_succ]
      simp only [List.length_cons] at hi
      exact ih j (by omega)

theorem chunksOf_length_of_mul {α : Type} (cs : Nat) (hcs : 0 < cs) :
    ∀ (k : Nat) (l : List α), l.length = k * cs → (chunksOf cs l).length = k := by
  intro k
  induction k with
  | zero =>
    intro l hl
    have : l = [] := List.eq_nil_of_length_eq_zero (by simpa using hl)
    subst this
    simp [chunksOf_nil]
  | succ k ih =>
    intro l hl
    have hpos : 0 < l.length := by
      rw [hl]
      exact Nat.mul_pos (Nat.succ_pos k) hcs
    have hne : l ≠ [] := List.length_pos.1 hpos
    rw [chunksOf_eq_cons cs hcs l hne]
    simp only [List.length_cons]
    rw [ih (l.drop cs) ?_]
    rw [List.length_drop, hl, Nat.succ_mul, Nat.add_sub_cancel]

theorem chunksOf_of_len_succ {α : Type} (cs : Nat) (hcs : 0 < cs) (l : List α)
    (hl : l.length = cs + 1) : (chunksOf cs l).map List.length = [cs, 1] := by
  have hne : l ≠ [] := List.length_pos.1 (by omega)
  rw [chunksOf_eq_cons cs hcs l hne]
  have hd : (l.drop cs).length = 1 := by
    rw [List.length_drop, hl]
    omega
  have hdne : l.drop cs ≠ [] := List.length_pos.1 (by omega)
  rw [chunksOf_eq_cons cs hcs (l.drop cs) hdne]
  have h2 : (l.drop cs).take cs = l.drop cs := List.take_of_length_le (by omega)
  have h3 : (l.drop cs).drop cs = [] := List.drop_eq_nil_of_le (by omega)
  rw [h2, h3, chunksOf_nil]
  simp only [List.map_cons, List.map_nil, List.length_take, hl, hd]
  have : min cs (cs + 1) = cs := Nat.min_eq_left (by omega)
  rw [this]

/-! ### The Sink Writer contract and `process_large_file`

`to_sql` writes are external effects; a write is recorded as a
`(mode, frame)` pair and its success is given by the oracle
`writeOk : Nat → Bool` (indexed by chunk number).  The pandas chunk
iterator is modelled by a list of `Except Unit (Frame α)`: `Except.ok`
yields a chunk, `Except.error` models a read failure raised while
iterating.  The result carries the returned boolean, the successful
writes in order, and the accumulated `total_rows`. -/

inductive Mode
  | replace
  | append
deriving DecidableEq

def read_csv_chunks {α : Type} (cs : Nat) (f : Frame α) : List (Frame α) :=
  (chunksOf cs f.rows).map (fun rs => Frame.mk f.cols rs)

/-- Source `process_large_file`, embedded: iterate chunks, clean columns,
upload with `replace` on chunk 1 and `append` after, accumulate
`total_rows`; any exception aborts the loop and returns `False`. -/
def process_large_file_go {α : Type} (writeOk : Nat → Bool) :
    List (Except Unit (Frame α)) → Nat → Nat → Bool × List (Mode × Frame α) × Nat
  | [], _, total_rows => (true, [], total_rows)
  | Except.error _ :: _, _, total_rows => (false, [], total_rows)
  | Except.ok chunk :: rest, chunk_number, total_rows =>
    let n := chunk_number + 1
    let cleaned := clean_column_names chunk
    let mode := if n = 1 then Mode.replace else Mode.append
    if writeOk n then
      let r := process_large_file_go writeOk rest n (total_rows + cleaned.rows.length)
      (r.1, (mode, cleaned) :: r.2.1, r.2.2)
    else (false, [], total_rows)

def process_large_file {α : Type} (writeOk : Nat → Bool)
    (stream : List (Except Unit (Frame α))) : Bool × List (Mode × Frame α) × Nat :=
  process_large_file_go writeOk stream 0 0

/-- The writes the loader performs for a chunk list, starting at chunk
number `n`: mode `replace` exactly when the chunk number is 1. -/
def chunkWritesFrom {α : Type} (n : Nat) : List (Frame α) → List (Mode × Frame α)
  | [] => []
  | c :: rest =>
    ((if n + 1 = 1 then Mode.replace else Mode.append), clean_column_names c) ::
      chunkWritesFrom (n + 1) rest

def totalRowsOf {α : Type} (chunks : List (Frame α)) : Nat :=
  (chunks.map (fun c => c.rows.length)).sum

/-- Sink Writer semantics on table contents: `replace` makes the table
exactly the batch; `append` adds the batch's rows after prior rows. -/
def applyWrite {α : Type} (table : List α) (w : Mode × Frame α) : List α :=
  match w.1 with
  | Mode.replace => w.2.rows
  | Mode.append => table ++ w.2.rows

theorem plf_go_ok {α : Type} (writeOk : Nat → Bool) (hok : ∀ n, writeOk n = true) :
    ∀ (chunks : List (Frame α)) (n t : Nat),
      process_large_file_go writeOk (chunks.map Except.ok) n t =
        (true, chunkWritesFrom n chunks, t + totalRowsOf chunks) := by
  intro chunks
  induction chunks with
  | nil =>
    intro n t
    simp [process_large_file_go, chunkWritesFrom, totalRowsOf]
  | cons c rest ih =>
    intro n t
    simp only [List.map_cons, process_large_file_go, hok (n + 1), if_true]
    rw [ih (n + 1) (t + (clean_column_names c).rows.length)]
    simp only [chunkWritesFrom, totalRowsOf, clean_column_names, List.map_cons,
      List.sum_cons, Prod.mk.injEq, true_and]
    omega

theorem plf_go_read_fail {α : Type} (writeOk : Nat → Bool)
    (hok : ∀ n, writeOk n = true) :
    ∀ (pre : List (Frame α)) (s : List (Except Unit (Frame α))) (n t : Nat),
      process_large_file_go writeOk (pre.map Except.ok ++ Except.error () :: s) n t =
        (false, chunkWritesFrom n pre, t + totalRowsOf pre) := by
  intro pre
  induction pre with
  | nil =>
    intro s n t
    simp [process_large_file_go, chunkWritesFrom, totalRowsOf]
  | cons c rest ih =>
    intro s n t
    simp only [List.map_cons, List.cons_append, process_large_file_go,
      hok (n + 1), if_true, List.append_eq]
    rw [ih s (n + 1) (t + (clean_column_names c).rows.length)]
    simp only [chunkWritesFrom, totalRowsOf, clean_column_names, List.map_cons,
      List.sum_cons, Prod.mk.injEq, true_and]
    omega

theorem plf_go_write_fail {α : Type} (writeOk : Nat → Bool) :
    ∀ (pre : List (Frame α)) (c : Frame α) (s : List (Except Unit (Frame α)))
      (n t : Nat),
      (∀ m, m ≤ n + pre.length → writeOk m = true) →
      writeOk (n + pre.length + 1) = false →
      process_large_file_go writeOk (pre.map Except.ok ++ Except.ok c :: s) n t =
        (false, chunkWritesFrom n pre, t + totalRowsOf pre) := by
  intro pre
  induction pre with
  | nil =>
    intro c s n t hok hfail
    simp only [List.length_nil, Nat.add_zero] at hfail
    simp [process_large_file_go, hfail, chunkWritesFrom, totalRowsOf]
  | cons p rest ih =>
    intro c s n t hok hfail
    have hw : writeOk (n + 1) = true := by
      refine hok (n + 1) ?_
      simp only [List.length_cons]
      omega
    simp only [List.map_cons, List.cons_append, process_large_file_go, hw,
      if_true, List.append_eq]
    rw [ih c s (n + 1) (t + (clean_column_names p).rows.length) ?_ ?_]
    · simp only [chunkWritesFrom, totalRowsOf, clean_column_names, List.map_cons,
        List.sum_cons, Prod.mk.injEq, true_and]
      omega
    · intro m hm
      refine hok m ?_
      simp only [List.length_cons]
      omega
    · have : n + 1 + rest.length + 1 = n + (p :: rest).length + 1 := by
        simp only [List.length_cons]
        omega
      rw [this]
      exact hfail

theorem chunkWritesFrom_length {α : Type} :
    ∀ (chunks : List (Frame α)) (n : Nat),
      (chunkWritesFrom n chunks).length = chunks.length := by
  intro chunks
  induction chunks with
  | nil => intro n; rfl
  | cons c rest ih =>
    intro n
    simp only [chunkWritesFrom, List.length_cons, ih (n + 1)]

theorem chunkWritesFrom_pos_fst {α : Type} :
    ∀ (chunks : List (Frame α)) (n i : Nat), 0 < n → i < chunks.length →
      ((chunkWritesFrom n chunks).getD i (Mode.append, Frame.mk [] [])).1 =
        Mode.append := by
  intro chunks
  induction chunks with
  | nil =>
    intro n i _ hi
    simp at hi
  | cons c rest ih =>
    intro n i hn hi
    cases i with
    | zero =>
      simp only [chunkWritesFrom, List.getD_cons_zero]
      have : ¬ n + 1 = 1 := by omega
      rw [if_neg this]
    | succ j =>
      simp only [chunkWritesFrom, List.getD_cons_succ]
      refine ih (n + 1) j (by omega) ?_
      simp only [List.length_cons] at hi
      omega

theorem chunkWritesFrom_zero_fst {α : Type} (chunks : List (Frame α)) (i : Nat)
    (hi : i < chunks.length) :
    ((chunkWritesFrom 0 chunks).getD i (Mode.append, Frame.mk [] [])).1 =
      if i = 0 then Mode.replace else Mode.append := by
  cases chunks with
  | nil => simp at hi
  | cons c rest =>
    cases i with
    | zero => rfl
    | succ j =>
      simp only [chunkWritesFrom, List.getD_cons_succ]
      rw [if_neg (by omega)]
      refine chunkWritesFrom_pos_fst rest 1 j (by omega) ?_
      simp only [List.length_cons] at hi
      omega

theorem foldl_applyWrite_pos {α : Type} :
    ∀ (chunks : List (Frame α)) (n : Nat) (t0 : List α), 0 < n →
      List.foldl applyWrite t0 (chunkWritesFrom n chunks) =
        t0 ++ (chunks.map Frame.rows).flatten := by
  intro chunks
  induction chunks with
  | nil =>
    intro n t0 _
    simp [chunkWritesFrom]
  | cons c rest ih =>
    intro n t0 hn
    simp only [chunkWritesFrom, List.foldl_cons]
    rw [if_neg (by omega)]
    rw [ih (n + 1) _ (by omega)]
    simp [applyWrite, clean_column_names, List.append_assoc]

theorem foldl_applyWrite_writes {α : Type} (chunks : List (Frame α))
    (hne : chunks ≠ []) (t0 : List α) :
    List.foldl applyWrite t0 (chunkWritesFrom 0 chunks) =
      (chunks.map Frame.rows).flatten := by
  cases chunks with
  | nil => exact absurd rfl hne
  | cons c rest =>
    simp only [chunkWritesFrom, List.foldl_cons, if_pos rfl]
    rw [foldl_applyWrite_pos rest 1 _ (by omega)]
    simp [applyWrite, clean_column_names]

theorem totalRowsOf_read_csv_chunks {α : Type} (cs : Nat) (hcs : 0 < cs)
    (f : Frame α) : totalRowsOf (read_csv_chunks cs f) = f.rows.length := by
  unfold totalRowsOf read_csv_chunks
  rw [List.map_map]
  have h1 : ((chunksOf cs f.rows).map
      ((fun c => c.rows.length) ∘ fun rs => Frame.mk f.cols rs)) =
      (chunksOf cs f.rows).map List.length := by
    refine List.map_congr_left ?_
    intro a _
    rfl
  rw [h1]
  have h2 := List.length_flatten (chunksOf cs f.rows)
  rw [chunksOf_flatten cs hcs f.rows] at h2
  exact h2.symm

/-! ### Claim C1 -/

/-- Claim C1: for every large-file load with a positive chunk-size bound,
the Chunked Loader reads the file as batches of row count at most the
bound, with every non-final batch exactly the bound; the loader succeeds
writing batch 1 in `replace` mode and every later batch in `append` mode,
accumulating a total equal to the source row count; a file with
`chunk_size + 1` rows produces 2 chunks of sizes `chunk_size` and 1, and a
file with `k * chunk_size` rows (in particular `3 * chunk_size`) produces
`k` chunks. -/
theorem chunked_loader_C1 {α : Type} (cs : Nat) (hcs : 0 < cs) (f : Frame α) :
    (∀ c ∈ chunksOf cs f.rows, c.length ≤ cs) ∧
    (∀ i, i + 1 < (chunksOf cs f.rows).length →
        ((chunksOf cs f.rows).getD i []).length = cs) ∧
    (process_large_file (fun _ => true) ((read_csv_chunks cs f).map Except.ok) =
        (true, chunkWritesFrom 0 (read_csv_chunks cs f), f.rows.length)) ∧
    (∀ i, i < (read_csv_chunks cs f).length →
        ((chunkWritesFrom 0 (read_csv_chunks cs f)).getD i
            (Mode.append, Frame.mk [] [])).1 =
          if i = 0 then Mode.replace else Mode.append) ∧
    (f.rows.length = cs + 1 → (chunksOf cs f.rows).map List.length = [cs, 1]) ∧
    (∀ k, f.rows.length = k * cs → (chunksOf cs f.rows).length = k) := by
  refine ⟨chunksOf_mem_length_le cs hcs f.rows,
    chunksOf_full_of_not_last cs hcs f.rows, ?_, ?_, ?_, ?_⟩
  · unfold process_large_file
    rw [plf_go_ok (fun _ => true) (fun _ => rfl) (read_csv_chunks cs f) 0 0]
    rw [totalRowsOf_read_csv_chunks cs hcs f]
    simp
  · intro i hi
    exact chunkWritesFrom_zero_fst (read_csv_chunks cs f) i hi
  · intro h
    exact chunksOf_of_len_succ cs hcs f.rows h
  · intro k hk
    exact chunksOf_length_of_mul cs hcs k f.rows hk

/-- Witness for C1: chunk size 2 on files of 6 and 3 rows. -/
theorem chunked_loader_C1_witness :
    (chunksOf 2 ([0, 1, 2, 3, 4, 5] : List Nat)).length = 3 ∧
    (chunksOf 2 ([0, 1, 2] : List Nat)).map List.length = [2, 1] := by
  constructor
  · exact (chunked_loader_C1 2 (by decide)
      (Frame.mk [] ([0, 1, 2, 3, 4, 5] : List Nat))).2.2.2.2.2 3 (by decide)
  · exact (chunked_loader_C1 2 (by decide)
      (Frame.mk [] ([0, 1, 2] : List Nat))).2.2.2.2.1 (by decide)

/-! ### Claim C2 -/

/-- Claim C2: if reading or writing any chunk fails, the Chunked Loader
stops immediately — the result does not depend on the part of the stream
after the failure (`rest` is universally quantified and absent from the
result) — keeps exactly the chunks written before the failure (their
writes fold to the concatenation of the prior chunks' rows: no rollback),
and returns `false` rather than raising. -/
theorem chunked_loader_failure_C2 {α : Type} (pre rest : List (Frame α))
    (writeOk : Nat → Bool) :
    ((∀ n, writeOk n = true) →
      process_large_file writeOk
          (pre.map Except.ok ++ Except.error () :: rest.map Except.ok) =
        (false, chunkWritesFrom 0 pre, totalRowsOf pre)) ∧
    ((∀ m, m ≤ pre.length → writeOk m = true) →
      writeOk (pre.length + 1) = false →
      ∀ c : Frame α,
        process_large_file writeOk
            (pre.map Except.ok ++ Except.ok c :: rest.map Except.ok) =
          (false, chunkWritesFrom 0 pre, totalRowsOf pre)) ∧
    (pre ≠ [] → ∀ t0 : List α,
      List.foldl applyWrite t0 (chunkWritesFrom 0 pre) =
        (pre.map Frame.rows).flatten) := by
  refine ⟨?_, ?_, ?_⟩
  · intro hok
    unfold process_large_file
    rw [plf_go_read_fail writeOk hok pre (rest.map Except.ok) 0 0]
    simp
  · intro hok hfail c
    unfold process_large_file
    rw [plf_go_write_fail writeOk pre c (rest.map Except.ok) 0 0
      (by intro m hm; exact hok m (by omega)) (by simpa using hfail)]
    simp
  · intro hne t0
    exact foldl_applyWrite_writes pre hne t0

/-- Witness for C2: a read failure after one successfully written chunk. -/
theorem chunked_loader_failure_C2_witness :
    process_large_file (fun _ => true)
        ([Except.ok (Frame.mk [] ([10, 11] : List Nat)), Except.error ()]) =
      (false, [(Mode.replace, Frame.mk [] ([10, 11] : List Nat))], 2) := by
  have h := (chunked_loader_failure_C2 [Frame.mk [] ([10, 11] : List Nat)] []
    (fun _ => true)).1 (fun _ => rfl)
  simpa [chunkWritesFrom, totalRowsOf, clean_column_names] using h

/-! ### `process_standard_file` and `process_single_file`

The standard loader reads the whole file (`readResult`, an `Except` since
`pd.read_csv` can raise), cleans columns, and issues a single `replace`
write whose success is `writeOk 1`.  `process_single_file` dispatches on
exact membership of the filename in the configured large-file list. -/

def process_standard_file {α : Type} (writeOk : Bool)
    (readResult : Except Unit (Frame α)) : Bool × List (Mode × Frame α) :=
  match readResult with
  | Except.error _ => (false, [])
  | Except.ok df =>
    let cleaned := clean_column_names df
    if writeOk then (true, [(Mode.replace, cleaned)]) else (false, [])

def process_single_file {α : Type} (large_files : List String)
    (writeOk : Nat → Bool) (stream : List (Except Unit (Frame α)))
    (readResult : Except Unit (Frame α)) (filename : String) :
    Bool × List (Mode × Frame α) :=
  if filename ∈ large_files then
    let r := process_large_file writeOk stream
    (r.1, r.2.1)
  else
    process_standard_file (writeOk 1) readResult

/-! ### Claim C7 -/

/-- Claim C7: a file whose name is not an exact member of the large-file
list is always routed to the Standard Loader, and (when its read and
write succeed) performs exactly one write to the sink, in `replace`
mode. -/
theorem standard_route_C7 {α : Type} (large_files : List String)
    (writeOk : Nat → Bool) (stream : List (Except Unit (Frame α)))
    (filename : String) (hmem : filename ∉ large_files) :
    (∀ readResult, process_single_file large_files writeOk stream readResult
        filename = process_standard_file (writeOk 1) readResult) ∧
    (∀ df : Frame α, writeOk 1 = true →
      process_single_file large_files writeOk stream (Except.ok df) filename =
        (true, [(Mode.replace, clean_column_names df)])) := by
  constructor
  · intro readResult
    unfold process_single_file
    rw [if_neg hmem]
  · intro df hw
    unfold process_single_file
    rw [if_neg hmem]
    simp [process_standard_file, hw]

/-- Witness for C7: `purchases.csv` with large-file list `["sales.csv"]`. -/
theorem standard_route_C7_witness :
    process_single_file ["sales.csv"] (fun _ => true) []
        (Except.ok (Frame.mk ["a".data] ([1, 2, 3] : List Nat))) "purchases.csv" =
      (true, [(Mode.replace, Frame.mk ["a".data] ([1, 2, 3] : List Nat))]) := by
  have h := (standard_route_C7 ["sales.csv"] (fun _ => true)
    ([] : List (Except Unit (Frame Nat))) "purchases.csv" (by decide)).2
    (Frame.mk ["a".data] ([1, 2, 3] : List Nat)) rfl
  rw [h]
  decide

/-! ### File discovery and the Pipeline Orchestrator

`run` is driven by three external collaborators, modelled as oracles:
whether the database connection probe succeeds (`connectOk`), the
directory listing (`Except.error` models an unreadable source directory,
caught in `get_csv_files` and turned into `[]`), and the per-file
processing outcome (`processOk`, abstracting `process_single_file`, whose
failures come from file and database I/O).  The `Action` trace records
which external operations `run` attempts, in order. -/

inductive RunResult
  | failed (reason : String)
  | completed (total_files successful failedCount : Nat)
      (failed_files : List String)
deriving DecidableEq

inductive Action
  | connect
  | listDir
  | processFile (filename : String)
deriving DecidableEq

def endswith_csv (f : String) : Bool :=
  List.isPrefixOf ".csv".data.reverse f.data.reverse

/-- Source `get_csv_files`, embedded: list the folder, keep names ending
in `.csv`; on a listing error, log and return `[]`. -/
def get_csv_files (listing : Except Unit (List String)) : List String :=
  match listing with
  | Except.error _ => []
  | Except.ok all_files => all_files.filter endswith_csv

/-- The per-file loop of `run`: count successes and failures and collect
failed filenames in order. -/
def runLoop (processOk : String → Bool) : List String → Nat × Nat × List String
  | [] => (0, 0, [])
  | f :: rest =>
    let r := runLoop processOk rest
    if processOk f then (r.1 + 1, r.2.1, r.2.2)
    else (r.1, r.2.1 + 1, f :: r.2.2)

/-- Source `run`, embedded: connect (fatal on failure), discover files
(fatal when none), then process each file, never aborting on a per-file
failure, and return the summary with status `completed`. -/
def run (connectOk : Bool) (listing : Except Unit (List String))
    (processOk : String → Bool) : RunResult × List Action :=
  if !connectOk then
    (RunResult.failed "Database connection failed", [Action.connect])
  else
    let csv_files := get_csv_files listing
    if csv_files.isEmpty then
      (RunResult.failed "No CSV files found", [Action.connect, Action.listDir])
    else
      let r := runLoop processOk csv_files
      (RunResult.completed csv_files.length r.1 r.2.1 r.2.2,
        Action.connect :: Action.listDir :: csv_files.map Action.processFile)

def statusOf : RunResult → String
  | RunResult.failed _ => "failed"
  | RunResult.completed _ _ _ _ => "completed"

theorem runLoop_spec (processOk : String → Bool) :
    ∀ fs : List String,
      runLoop processOk fs =
        (fs.countP processOk, fs.countP (fun f => !(processOk f)),
          fs.filter (fun f => !(processOk f))) := by
  intro fs
  induction fs with
  | nil => simp [runLoop]
  | cons f rest ih =>
    simp only [runLoop, ih]
    by_cases hf : processOk f
    · simp [hf, List.countP_cons, List.filter_cons]
    · have hf' : processOk f = false := by simpa using hf
      simp [hf', List.countP_cons, List.filter_cons]

theorem countP_self_add_not (p : String → Bool) (l : List String) :
    l.countP p + l.countP (fun f => !(p f)) = l.length := by
  induction l with
  | nil => rfl
  | cons a t ih =>
    by_cases h : p a
    · simp [List.countP_cons, h]
      omega
    · have h' : p a = false := by simpa using h
      simp [List.countP_cons, h']
      omega

theorem run_true_nonempty (listing : Except Unit (List String))
    (processOk : String → Bool) (hne : get_csv_files listing ≠ []) :
    run true listing processOk =
      (RunResult.completed (get_csv_files listing).length
          ((get_csv_files listing).countP processOk)
          ((get_csv_files listing).countP (fun f => !(processOk f)))
          ((get_csv_files listing).filter (fun f => !(processOk f))),
        Action.connect :: Action.listDir ::
          (get_csv_files listing).map Action.processFile) := by
  have hemp : (get_csv_files listing).isEmpty = false :=
    List.isEmpty_eq_false.2 hne
  simp [run, hemp, runLoop_spec]

/-! ### Claim C3 -/

/-- Claim C3: when the connection succeeds and at least one file is
discovered, a per-file failure never aborts the run — every discovered
file is still processed, the failing filenames are recorded, and the
status is `completed`; in particular for files `["a.csv", "b.csv"]` where
`b.csv` fails, `run` returns `successful = 1`, `failed = 1`,
`failed_files = ["b.csv"]`, status `completed`. -/
theorem run_per_file_failure_C3 :
    (∀ (listing : Except Unit (List String)) (processOk : String → Bool),
        get_csv_files listing ≠ [] →
        (run true listing processOk).1 =
            RunResult.completed (get_csv_files listing).length
              ((get_csv_files listing).countP processOk)
              ((get_csv_files listing).countP (fun f => !(processOk f)))
              ((get_csv_files listing).filter (fun f => !(processOk f))) ∧
          (run true listing processOk).2 =
            Action.connect :: Action.listDir ::
              (get_csv_files listing).map Action.processFile) ∧
    run true (Except.ok ["a.csv", "b.csv"]) (fun f => !(f == "b.csv")) =
      (RunResult.completed 2 1 1 ["b.csv"],
        [Action.connect, Action.listDir, Action.processFile "a.csv",
          Action.processFile "b.csv"]) := by
  constructor
  · intro listing processOk hne
    rw [run_true_nonempty listing processOk hne]
    exact ⟨rfl, rfl⟩
  · decide

/-- Witness for C3 at the one-file listing `["a.csv"]`. -/
theorem run_per_file_failure_C3_witness :
    (run true (Except.ok ["a.csv"]) (fun _ => false)).2 =
      [Action.connect, Action.listDir, Action.processFile "a.csv"] := by
  have h := (run_per_file_failure_C3.1 (Except.ok ["a.csv"]) (fun _ => false)
    (by decide)).2
  rw [h]
  decide

/-! ### Claim C4 -/

/-- Claim C4: `run` returns status `failed` exactly for the two fatal
preconditions — connection failure (reason `Database connection failed`,
with no file discovery attempted) and zero discovered CSV files (reason
`No CSV files found`, including an unreadable source directory, treated
as zero files); in every other case the status is `completed`. -/
theorem run_fatal_preconditions_C4 :
    (∀ listing processOk, run false listing processOk =
        (RunResult.failed "Database connection failed", [Action.connect])) ∧
    (∀ listing processOk, get_csv_files listing = [] →
        run true listing processOk =
          (RunResult.failed "No CSV files found",
            [Action.connect, Action.listDir])) ∧
    (∀ processOk : String → Bool, run true (Except.error ()) processOk =
        (RunResult.failed "No CSV files found",
          [Action.connect, Action.listDir])) ∧
    (∀ connectOk listing processOk,
        statusOf (run connectOk listing processOk).1 = "failed" ↔
          (connectOk = false ∨ get_csv_files listing = [])) := by
  have hfail2 : ∀ (listing : Except Unit (List String))
      (processOk : String → Bool), get_csv_files listing = [] →
      run true listing processOk =
        (RunResult.failed "No CSV files found",
          [Action.connect, Action.listDir]) := by
    intro listing processOk h
    have hemp : (get_csv_files listing).isEmpty = true := by
      rw [List.isEmpty_iff]
      exact h
    simp [run, hemp]
  refine ⟨fun listing processOk => by simp [run], hfail2,
    fun processOk => hfail2 (Except.error ()) processOk rfl, ?_⟩
  intro connectOk listing processOk
  cases connectOk with
  | false =>
    simp only [run, Bool.not_false, if_true, statusOf]
    simp
  | true =>
    by_cases h : get_csv_files listing = []
    · rw [hfail2 listing processOk h]
      simp [statusOf, h]
    · rw [run_true_nonempty listing processOk h]
      simp only [statusOf]
      constructor
      · intro hc
        exact absurd hc (by decide)
      · intro hc
        rcases hc with hc | hc
        · exact absurd hc (by decide)
        · exact absurd hc h

/-- Witness for C4: a failed connection, and an empty source listing. -/
theorem run_fatal_preconditions_C4_witness :
    run false (Except.ok ["a.csv"]) (fun _ => true) =
        (RunResult.failed "Database connection failed", [Action.connect]) ∧
    run true (Except.ok []) (fun _ => true) =
        (RunResult.failed "No CSV files found",
          [Action.connect, Action.listDir]) :=
  ⟨run_fatal_preconditions_C4.1 (Except.ok ["a.csv"]) (fun _ => true),
    run_fatal_preconditions_C4.2.1 (Except.ok []) (fun _ => true) (by decide)⟩

/-! ### Claim C10 -/

/-- Claim C10: whenever `run` reaches per-file processing, the summary
satisfies `successful + failed = total_files`, `failed` equals the length
of `failed_files`, and `failed_files` lists the failing filenames in
enumeration order (it is the in-order sublist of discovered files failing
processing). -/
theorem run_summary_invariants_C10 (listing : Except Unit (List String))
    (processOk : String → Bool) (h : get_csv_files listing ≠ []) :
    ∃ t s k ffs, (run true listing processOk).1 =
        RunResult.completed t s k ffs ∧
      s + k = t ∧ k = ffs.length ∧
      ffs = (get_csv_files listing).filter (fun f => !(processOk f)) := by
  refine ⟨(get_csv_files listing).length,
    (get_csv_files listing).countP processOk,
    (get_csv_files listing).countP (fun f => !(processOk f)),
    (get_csv_files listing).filter (fun f => !(processOk f)), ?_, ?_, ?_, rfl⟩
  · rw [run_true_nonempty listing processOk h]
  · exact countP_self_add_not processOk (get_csv_files listing)
  · exact List.countP_eq_length_filter _ _

/-- Witness for C10 at the listing `["a.csv", "b.csv"]` where `b.csv`
fails. -/
theorem run_summary_invariants_C10_witness :
    ∃ t s k ffs,
      (run true (Except.ok ["a.csv", "b.csv"]) (fun f => !(f == "b.csv"))).1 =
        RunResult.completed t s k ffs ∧
      s + k = t ∧ k = ffs.length ∧
      ffs = (get_csv_files (Except.ok ["a.csv", "b.csv"])).filter
          (fun f => !(!(f == "b.csv"))) :=
  run_summary_invariants_C10 (Except.ok ["a.csv", "b.csv"])
    (fun f => !(f == "b.csv")) (by decide)

/-! ### Configuration (`__init__`) and the process entry point

The environment is a map from variable names to `Option String`
(`none` = unset).  Python truthiness of `os.getenv(v)` is false for both
`None` and the empty string. -/

def required_vars : List String :=
  ["DB_HOST", "DB_PORT", "DB_NAME", "DB_USER", "DB_PASSWORD"]

def truthy : Option String → Bool
  | none => false
  | some s => !(s == "")

/-- Source line `missing_vars = [var for var in required_vars if not os.getenv(var)]`. -/
def missing_vars (env : String → Option String) : List String :=
  required_vars.filter (fun v => !(truthy (env v)))

inductive ConfigError
  | missingEnvVars (vars : List String)
  | missingFolderPath
  | invalidChunkSize
deriving DecidableEq

structure Pipeline where
  db_host : String
  db_port : String
  db_name : String
  db_user : String
  db_password : String
  csv_folder_path : String
  chunk_size : Nat
  large_files : List String
deriving DecidableEq

def digitsToNatAux : List Char → Nat → Option Nat
  | [], acc => some acc
  | c :: rest, acc =>
    if 48 ≤ c.toNat ∧ c.toNat ≤ 57 then
      digitsToNatAux rest (acc * 10 + (c.toNat - 48))
    else none

/-- Python `int(s)` as used on `CHUNK_SIZE`: a non-negative decimal digit
string, surrounding whitespace allowed (the sign forms of `int` are never
exercised by the pipeline, whose only parsed value defaults to
`'100000'`). -/
def pyIntNat (s : String) : Option Nat :=
  match pyStrip s.data with
  | [] => none
  | ds => digitsToNatAux ds 0

def splitCommaAux : List Char → List Char → List String
  | [], acc => [String.mk acc.reverse]
  | c :: rest, acc =>
    if c == ',' then String.mk acc.reverse :: splitCommaAux rest []
    else splitCommaAux rest (c :: acc)

/-- Python `s.split(',')`. -/
def py_split_comma (s : String) : List String := splitCommaAux s.data []

/-- Source `__init__`, embedded: validate the five required database
variables (raising `ValueError` naming the missing ones), then resolve
the folder path (argument overriding `CSV_FOLDER_PATH`, with Python
falsiness), the chunk size (argument, else `int(CHUNK_SIZE or '100000')`)
and the large-file list (`LARGE_FILES or 'sales.csv'`, split on commas). -/
def pipelineInit (env : String → Option String)
    (csv_folder_path : Option String) (chunk_size : Option Nat) :
    Except ConfigError Pipeline :=
  let missing := missing_vars env
  if missing.isEmpty then
    let folder0 : Option String :=
      match csv_folder_path with
      | some p => if p == "" then env "CSV_FOLDER_PATH" else some p
      | none => env "CSV_FOLDER_PATH"
    if truthy folder0 then
      let folder := folder0.getD ""
      let cs0 : Option Nat :=
        match chunk_size with
        | some n => if n = 0 then none else some n
        | none => none
      match cs0 with
      | some n =>
        Except.ok (Pipeline.mk ((env "DB_HOST").getD "") ((env "DB_PORT").getD "")
          ((env "DB_NAME").getD "") ((env "DB_USER").getD "")
          ((env "DB_PASSWORD").getD "") folder n
          (py_split_comma ((env "LARGE_FILES").getD "sales.csv")))
      | none =>
        match pyIntNat ((env "CHUNK_SIZE").getD "100000") with
        | some n =>
          Except.ok (Pipeline.mk ((env "DB_HOST").getD "") ((env "DB_PORT").getD "")
            ((env "DB_NAME").getD "") ((env "DB_USER").getD "")
            ((env "DB_PASSWORD").getD "") folder n
            (py_split_comma ((env "LARGE_FILES").getD "sales.csv")))
        | none => Except.error ConfigError.invalidChunkSize
    else Except.error ConfigError.missingFolderPath
  else Except.error (ConfigError.missingEnvVars missing)

/-- The `__main__` block: construct the pipeline (a `ValueError` is caught
and the process exits 1 before any I/O action), run it, and exit 0 only
when the run completed with zero failed files. -/
def mainExit (env : String → Option String) (connectOk : Bool)
    (listing : Except Unit (List String)) (processOk : String → Bool) :
    Nat × List Action :=
  match pipelineInit env none none with
  | Except.error _ => (1, [])
  | Except.ok _ =>
    let r := run connectOk listing processOk
    ((match r.1 with
      | RunResult.completed _ _ k _ => if k = 0 then 0 else 1
      | RunResult.failed _ => 1), r.2)

/-! ### Claim C8 -/

/-- Claim C8: if any of the five required store settings is absent (unset
or empty), pipeline construction fails with a configuration error naming
exactly the missing variables, before any file processing or I/O action,
and the process exits with the non-zero code 1. -/
theorem config_error_C8 (env : String → Option String)
    (h : ∃ v ∈ required_vars, truthy (env v) = false) :
    (∀ p c, pipelineInit env p c =
        Except.error (ConfigError.missingEnvVars (missing_vars env))) ∧
    missing_vars env ≠ [] ∧
    (∀ v, v ∈ missing_vars env ↔ (v ∈ required_vars ∧ truthy (env v) = false)) ∧
    (∀ connectOk listing processOk,
        mainExit env connectOk listing processOk = (1, [])) := by
  rcases h with ⟨v, hv, hfalse⟩
  have hmem : v ∈ missing_vars env := by
    unfold missing_vars
    refine List.mem_filter.2 ⟨hv, ?_⟩
    simp [hfalse]
  have hne : missing_vars env ≠ [] := by
    intro he
    rw [he] at hmem
    simp at hmem
  have hemp : (missing_vars env).isEmpty = false := List.isEmpty_eq_false.2 hne
  have hinit : ∀ p c, pipelineInit env p c =
      Except.error (ConfigError.missingEnvVars (missing_vars env)) := by
    intro p c
    unfold pipelineInit
    simp [hemp]
  refine ⟨hinit, hne, ?_, ?_⟩
  · intro w
    unfold missing_vars
    rw [List.mem_filter]
    simp
  · intro connectOk listing processOk
    unfold mainExit
    rw [hinit none none]

/-- Witness for C8: the empty environment is missing all five variables. -/
theorem config_error_C8_witness :
    pipelineInit (fun _ => none) none none =
        Except.error (ConfigError.missingEnvVars
          ["DB_HOST", "DB_PORT", "DB_NAME", "DB_USER", "DB_PASSWORD"]) ∧
    mainExit (fun _ => none) true (Except.ok ["a.csv"]) (fun _ => true) =
      (1, []) := by
  have h := config_error_C8 (fun _ => none)
    ⟨"DB_HOST", by decide, rfl⟩
  constructor
  · rw [h.1 none none]
    rfl
  · exact h.2.2.2 true (Except.ok ["a.csv"]) (fun _ => true)

end DataIngestion
